import Mathlib

set_option maxHeartbeats 1000000

/-!
Shallow embedding of the public-goods game engine of this repository
(games/public_goods.py together with the model layer in models.py and the
service layer in app.py).

Modelling conventions:
* Monetary amounts are exact rationals.  The Python source stores money in
  floats, but every configured rate is a short decimal literal and the claims
  are about the algebraic payoff formula, so money is embedded as ℚ.
* Database rows become plain Lean structures; a SQLAlchemy session add
  followed by a commit becomes a state update applied on the success path.
  Validation-error paths of process_move return the state unchanged, which
  matches the transactional semantics of the source: no commit occurs on any
  error return, and the uncommitted session changes are rolled back when the
  per-request scoped session is torn down.
* The field settleCount on a round is instrumentation: it counts how many
  times calculate_round_results has run for that round, so that the
  at-most-one-settlement property can be stated.  It does not exist in the
  source; completedAt does.
* datetime.utcnow() timestamps are abstracted to Booleans or to an explicit
  Nat clock value passed by the caller, since only their presence matters.
-/

structure Config where
  tokensPerRound : Int
  keepValue : ℚ
  investValue : ℚ
  socialValue : ℚ
  maxRounds : Nat
deriving Repr, DecidableEq

/-- Default configuration written by create_game in app.py. -/
def defaultConfig : Config :=
  { tokensPerRound := 5, keepValue := 0.20, investValue := 0.10,
    socialValue := 0.10, maxRounds := 15 }

/-- A PlayerMove row: stored investment, derived kept amount, earnings filled
at settlement time. -/
structure Move where
  playerId : Nat
  tokensInvested : Int
  tokensKept : Int
  earnings : Option ℚ
deriving Repr, DecidableEq

/-- A Round row.  settleCount instruments the number of settlement runs. -/
structure RoundSt where
  moves : List Move
  completedAt : Bool
  settleCount : Nat
  totalInvestedStat : Option ℚ
  averageInvestmentStat : Option ℚ
deriving Repr, DecidableEq

def emptyRound : RoundSt :=
  { moves := [], completedAt := false, settleCount := 0,
    totalInvestedStat := none, averageInvestmentStat := none }

/-- A Player row restricted to the fields the engine reads. -/
structure PlayerSt where
  id : Nat
  totalEarnings : ℚ
deriving Repr, DecidableEq

inductive GStatus
  | waiting
  | active
  | completed
deriving Repr, DecidableEq

/-- A GameResult row. -/
structure ResultRec where
  playerId : Nat
  finalEarnings : ℚ
  totalInvestment : Int
  avgInvestmentPerRound : ℚ
  cooperationRate : ℚ
  performanceRank : Nat
deriving Repr, DecidableEq

/-- The engine-visible state of one game: the Game row plus its related
Player, Round, PlayerMove and GameResult rows. -/
structure GameSt where
  status : GStatus
  currentRound : Nat
  players : List PlayerSt
  rounds : List (Nat × RoundSt)
  results : List ResultRec
  gameCompletedAt : Bool
deriving Repr, DecidableEq

/-- Round.query.filter_by(game_id, round_number) modelled on the association
list of rounds keyed by round_number. -/
def lookupRound (rs : List (Nat × RoundSt)) (n : Nat) : Option RoundSt :=
  match rs with
  | [] => none
  | (m, r) :: rest => if m = n then some r else lookupRound rest n

/-- Writing a (possibly fresh) Round row back: update the first entry with
this round number, or append a new entry. -/
def setRound (rs : List (Nat × RoundSt)) (n : Nat) (r : RoundSt) :
    List (Nat × RoundSt) :=
  match rs with
  | [] => [(n, r)]
  | (m, r0) :: rest =>
    if m = n then (n, r) :: rest else (m, r0) :: setRound rest n r

/-- Player.query.filter_by(id, game_id).first(). -/
def findPlayer (st : GameSt) (pid : Nat) : Option PlayerSt :=
  st.players.find? (fun p => p.id == pid)

/-- PlayerMove.query.filter_by(round_id, player_id).first() as a Boolean. -/
def roundHasMove (r : RoundSt) (pid : Nat) : Bool :=
  r.moves.any (fun m => m.playerId == pid)

/-- Number of moves recorded for round n. -/
def movesCount (st : GameSt) (n : Nat) : Nat :=
  match lookupRound st.rounds n with
  | none => 0
  | some r => r.moves.length

/-- PublicGoodsGame.is_round_complete: moves_count >= total_players, where
total_players is the game's current player count. -/
def is_round_complete (st : GameSt) (n : Nat) : Bool :=
  decide (movesCount st n ≥ st.players.length)

/-- The per-move earnings expression of calculate_round_results:
tokens_kept * keep_value + tokens_invested * invest_value
+ total_invested * social_value. -/
def earningsOf (cfg : Config) (totalInvested : Int) (m : Move) : ℚ :=
  (m.tokensKept : ℚ) * cfg.keepValue + (m.tokensInvested : ℚ) * cfg.investValue
    + (totalInvested : ℚ) * cfg.socialValue

/-- Player.query.filter_by(id).first() followed by
player.total_earnings += amt: credit the first player with this id. -/
def creditFirst (ps : List PlayerSt) (pid : Nat) (amt : ℚ) : List PlayerSt :=
  match ps with
  | [] => []
  | p :: rest =>
    if p.id = pid then { p with totalEarnings := p.totalEarnings + amt } :: rest
    else p :: creditFirst rest pid amt

/-- PublicGoodsGame.calculate_round_results. -/
def calculate_round_results (cfg : Config) (st : GameSt) (n : Nat) : GameSt :=
  match lookupRound st.rounds n with
  | none => st
  | some r =>
    let totalInvested : Int := (r.moves.map Move.tokensInvested).sum
    let newMoves := r.moves.map
      (fun m => { m with earnings := some (earningsOf cfg totalInvested m) })
    let newPlayers := r.moves.foldl
      (fun ps m => creditFirst ps m.playerId (earningsOf cfg totalInvested m))
      st.players
    let newRound : RoundSt :=
      { moves := newMoves, completedAt := true, settleCount := r.settleCount + 1,
        totalInvestedStat := some (totalInvested : ℚ),
        averageInvestmentStat :=
          some (if r.moves.length = 0 then 0
                else (totalInvested : ℚ) / (r.moves.length : ℚ)) }
    { st with rounds := setRound st.rounds n newRound, players := newPlayers }

/-- PublicGoodsGame.advance_round. -/
def advance_round (st : GameSt) : GameSt :=
  { st with currentRound := st.currentRound + 1 }

/-- Total investment of a round: the sum of tokensInvested over all of the
round's moves. -/
def roundTotal (r : RoundSt) : Int := (r.moves.map Move.tokensInvested).sum

/-- A move with its settlement earnings written on. -/
def settleMove (cfg : Config) (totalInvested : Int) (m : Move) : Move :=
  { m with earnings := some (earningsOf cfg totalInvested m) }

/-- The closed form of the Round row after settlement: every move carries
its earnings, the round is stamped completed, and the aggregate stats hold
the total and average investment. -/
def settledRound (cfg : Config) (r : RoundSt) : RoundSt :=
  { moves := r.moves.map (settleMove cfg (roundTotal r)),
    completedAt := true, settleCount := r.settleCount + 1,
    totalInvestedStat := some ((roundTotal r : Int) : ℚ),
    averageInvestmentStat :=
      some (if r.moves.length = 0 then 0
            else ((roundTotal r : Int) : ℚ) / (r.moves.length : ℚ)) }

/-- The closed form of the player list after settlement: each player's
totalEarnings grows by the earnings of that player's moves in the round. -/
def settledPlayers (cfg : Config) (r : RoundSt) (ps : List PlayerSt) :
    List PlayerSt :=
  ps.map (fun p => { p with totalEarnings := p.totalEarnings +
    ((r.moves.filter (fun m => m.playerId == p.id)).map
      (earningsOf cfg (roundTotal r))).sum })

/-- PlayerMove.query.join(Round).filter(game, player): all of one player's
moves across the game's rounds. -/
def playerMovesAll (st : GameSt) (pid : Nat) : List Move :=
  ((st.rounds.map (fun pr => pr.2.moves)).flatten).filter
    (fun m => m.playerId == pid)

/-- Descending comparison on total earnings used by the finalization sort
(sorted with key total_earnings, reverse=True). -/
def earnGe (p q : PlayerSt) : Prop := q.totalEarnings ≤ p.totalEarnings

instance : DecidableRel earnGe := fun p q =>
  inferInstanceAs (Decidable (q.totalEarnings ≤ p.totalEarnings))

instance : IsTotal PlayerSt earnGe :=
  ⟨fun a b => le_total b.totalEarnings a.totalEarnings⟩

instance : IsTrans PlayerSt earnGe :=
  ⟨fun _ _ _ hab hbc => le_trans hbc hab⟩

/-- The GameResult row built for one player at a given rank. -/
def mkResult (cfg : Config) (st : GameSt) (rank : Nat) (p : PlayerSt) :
    ResultRec :=
  let pm := playerMovesAll st p.id
  let totalInvestment : Int := (pm.map Move.tokensInvested).sum
  let avgInvestment : ℚ :=
    if pm.length = 0 then 0 else (totalInvestment : ℚ) / (pm.length : ℚ)
  let cooperationRate : ℚ :=
    (totalInvestment : ℚ) / ((cfg.maxRounds : ℚ) * (cfg.tokensPerRound : ℚ)) * 100
  { playerId := p.id, finalEarnings := p.totalEarnings,
    totalInvestment := totalInvestment, avgInvestmentPerRound := avgInvestment,
    cooperationRate := cooperationRate, performanceRank := rank }

/-- The list of GameResult rows finalize_game persists: players sorted by
total earnings descending, ranks assigned by enumerate(.., 1). -/
def compute_results (cfg : Config) (st : GameSt) : List ResultRec :=
  let playersSorted := st.players.insertionSort earnGe
  playersSorted.enum.map (fun ip => mkResult cfg st (ip.1 + 1) ip.2)

/-- PublicGoodsGame.finalize_game. -/
def finalize_game (cfg : Config) (st : GameSt) : GameSt :=
  { st with status := GStatus.completed, gameCompletedAt := true,
            results := st.results ++ compute_results cfg st }

inductive MoveErr
  | playerNotFound
  | invalidInvestment
  | duplicateMove
deriving Repr, DecidableEq

inductive MoveOutcome
  | rejected (e : MoveErr)
  | moveAccepted
  | roundComplete (nextRound : Nat)
  | gameComplete
deriving Repr, DecidableEq

/-- The PlayerMove row as recorded by both process_move and the automated
driver: stored tokens_invested and derived tokens_kept, earnings empty. -/
def mkMove (cfg : Config) (pid : Nat) (inv : Int) : Move :=
  { playerId := pid, tokensInvested := inv,
    tokensKept := cfg.tokensPerRound - inv, earnings := none }

/-- PublicGoodsGame.process_move.  The source checks, in order: player
membership, investment bounds, duplicate move; on success it records the
move (creating the Round row on the first move of that number), then checks
completeness and settles, finalizing or advancing. -/
def process_move (cfg : Config) (st : GameSt) (playerId : Nat)
    (tokensInvested : Int) : MoveOutcome × GameSt :=
  match findPlayer st playerId with
  | none => (MoveOutcome.rejected MoveErr.playerNotFound, st)
  | some _ =>
    let n := st.currentRound
    let cur := (lookupRound st.rounds n).getD emptyRound
    if tokensInvested < 0 ∨ tokensInvested > cfg.tokensPerRound then
      (MoveOutcome.rejected MoveErr.invalidInvestment, st)
    else if roundHasMove cur playerId then
      (MoveOutcome.rejected MoveErr.duplicateMove, st)
    else
      let mv : Move := mkMove cfg playerId tokensInvested
      let st1 : GameSt :=
        { st with rounds := setRound st.rounds n { cur with moves := cur.moves ++ [mv] } }
      if is_round_complete st1 n then
        let st2 := calculate_round_results cfg st1 n
        if (st2.currentRound : Int) ≥ (cfg.maxRounds : Int) - 1 then
          (MoveOutcome.gameComplete, finalize_game cfg st2)
        else
          let st3 := advance_round st2
          (MoveOutcome.roundComplete st3.currentRound, st3)
      else (MoveOutcome.moveAccepted, st1)

/-- A freshly created game as produced by create_game plus a full set of
joined players: status active from creation, round counter at zero, no
rounds, all accumulators zero. -/
def initialState (pids : List Nat) : GameSt :=
  { status := GStatus.active, currentRound := 0,
    players := pids.map (fun i => { id := i, totalEarnings := 0 }),
    rounds := [], results := [], gameCompletedAt := false }

/-- Sequential application of process_move submissions, keeping the state. -/
def runMoves (cfg : Config) (st : GameSt) (ms : List (Nat × Int)) : GameSt :=
  ms.foldl (fun s m => (process_move cfg s m.1 m.2).2) st

/-- Player ids of a player list. -/
def idsOf (ps : List PlayerSt) : List Nat := ps.map PlayerSt.id

/-- Ids of the players who have a move in a round. -/
def moverIds (r : RoundSt) : List Nat := r.moves.map Move.playerId

/-! Automated driver: run_full_game of games/public_goods.py.  The decision
values produced by generate_ai_move are abstracted into a function d taking
the round number and the player's index in the game's player list. -/

inductive RunOutcome
  | rejected
  | ok
deriving Repr, DecidableEq

/-- One iteration of run_full_game's round loop: set current_round, create
the Round row, record one generated move per player (in player-list order),
then settle via calculate_round_results. -/
def run_round (cfg : Config) (d : Nat → Nat → Int) (s : GameSt) (rn : Nat) :
    GameSt :=
  let s1 : GameSt := { s with currentRound := rn }
  let moves := s1.players.enum.map (fun ip => mkMove cfg ip.2.id (d rn ip.1))
  let s2 : GameSt :=
    { s1 with rounds := s1.rounds ++ [(rn, { emptyRound with moves := moves })] }
  calculate_round_results cfg s2 rn

/-- PublicGoodsGame.run_full_game: requires exactly 4 players, runs every
round through run_round, then marks the game completed and finalizes. -/
def run_full_game (cfg : Config) (d : Nat → Nat → Int) (st : GameSt) :
    RunOutcome × GameSt :=
  if st.players.length ≠ 4 then (RunOutcome.rejected, st)
  else
    let st1 := (List.range cfg.maxRounds).foldl (run_round cfg d) st
    let st2 : GameSt := { st1 with status := GStatus.completed, gameCompletedAt := true }
    (RunOutcome.ok, finalize_game cfg st2)

/-- The interactive-path submissions for one round: every player, in
player-list order, submits the decision the provider generated. -/
def roundSchedule (d : Nat → Nat → Int) (rn : Nat) (ids : List Nat) :
    List (Nat × Int) :=
  ids.enum.map (fun ip => (ip.2, d rn ip.1))

/-- The interactive-path submissions for the whole game, round by round. -/
def fullSchedule (cfg : Config) (d : Nat → Nat → Int) (ids : List Nat) :
    List (Nat × Int) :=
  ((List.range cfg.maxRounds).map (fun rn => roundSchedule d rn ids)).flatten

/-! Decision generation: PublicGoodsGame.generate_ai_move.  The external
call and regex parse are abstracted: the call either raises, or returns a
response whose regex extraction yields some integer token count (the
pattern captures a digit string, hence a natural number) or nothing.
random.randint(0, tokens_per_round) is abstracted to a supplied value
together with its range contract. -/

inductive ExtOutcome
  | raised
  | response (parsedTokens : Option Nat)
deriving Repr, DecidableEq

/-- PublicGoodsGame.generate_ai_move: in dev mode a random draw; otherwise
parse the external response, clamp a parsed value into range, and fall back
to the random draw when parsing fails or the call raised. -/
def generate_ai_move (cfg : Config) (devMode : Bool) (randVal : Int)
    (ext : ExtOutcome) : Int :=
  if devMode then randVal
  else
    match ext with
    | ExtOutcome.raised => randVal
    | ExtOutcome.response parsed =>
      match parsed with
      | some tokens => max 0 (min (tokens : Int) cfg.tokensPerRound)
      | none => randVal

/-! Service layer: create_game and add_ai_player of app.py. -/

structure AppPlayer where
  id : Nat
  position : Nat
  joinedAt : Nat
deriving Repr, DecidableEq

structure AppGame where
  status : GStatus
  createdAt : Option Nat
  startedAt : Option Nat
  maxRounds : Nat
  players : List AppPlayer
deriving Repr, DecidableEq

/-- app.create_game: the Game row is created with status already active and
started_at stamped at creation time. -/
def create_game (now : Nat) : AppGame :=
  { status := GStatus.active, createdAt := some now, startedAt := some now,
    maxRounds := 15, players := [] }

inductive AddOutcome
  | gameFull
  | added (position : Nat)
deriving Repr, DecidableEq

/-- app.add_ai_player: reject when 4 players have already joined (the only
rejection condition); otherwise append the player at the next position and,
when this is the 4th join, set status active and restamp started_at. -/
def add_ai_player (g : AppGame) (pid : Nat) (now : Nat) :
    AddOutcome × AppGame :=
  if g.players.length ≥ 4 then (AddOutcome.gameFull, g)
  else
    let pos := g.players.length
    let g1 : AppGame :=
      { g with players := g.players ++ [{ id := pid, position := pos, joinedAt := now }] }
    if pos + 1 ≥ 4 then
      (AddOutcome.added pos, { g1 with status := GStatus.active, startedAt := some now })
    else
      (AddOutcome.added pos, g1)

/-- A one-player game state whose current round already holds a move by
player 0, used to exercise the validation order on a submission that is
both a duplicate and out of range. -/
def dupState : GameSt :=
  { status := GStatus.active, currentRound := 0,
    players := [{ id := 0, totalEarnings := 0 }],
    rounds := [(0, { emptyRound with moves := [mkMove defaultConfig 0 3] })],
    results := [], gameCompletedAt := false }

/-- A round holding a single unsettled move, used to instantiate the
settlement theorems at a concrete input. -/
def w1Round : RoundSt := { emptyRound with moves := [mkMove defaultConfig 0 3] }

/-- A one-player game whose round 0 is w1Round. -/
def w1State : GameSt :=
  { status := GStatus.active, currentRound := 0,
    players := [{ id := 0, totalEarnings := 0 }],
    rounds := [(0, w1Round)], results := [], gameCompletedAt := false }

/-- The moves the automated driver records for a round, starting from
player index k: one generated move per player id, in order. -/
def mkMovesFrom (cfg : Config) (d : Nat → Nat → Int) (rn k : Nat)
    (ids : List Nat) : List Move :=
  (List.enumFrom k ids).map (fun ip => mkMove cfg ip.2 (d rn ip.1))

/-- The interactive submissions for the players with indices from k on. -/
def scheduleFrom (d : Nat → Nat → Int) (rn k : Nat) (ids : List Nat) :
    List (Nat × Int) :=
  (List.enumFrom k ids).map (fun ip => (ip.2, d rn ip.1))

/-- The Round row the automated driver creates for round rn, already
holding the generated moves. -/
def driverRound (cfg : Config) (d : Nat → Nat → Int) (rn : Nat)
    (ids : List Nat) : RoundSt :=
  { emptyRound with moves := mkMovesFrom cfg d rn 0 ids }

/-- The interactive-path state after the first n rounds of the schedule. -/
def procAfter (cfg : Config) (d : Nat → Nat → Int) (pids : List Nat)
    (n : Nat) : GameSt :=
  runMoves cfg (initialState pids)
    (((List.range n).map (fun rn => roundSchedule d rn pids)).flatten)

/-- The automated-path state after the first n iterations of
run_full_game's round loop. -/
def runPathN (cfg : Config) (d : Nat → Nat → Int) (pids : List Nat)
    (n : Nat) : GameSt :=
  (List.range n).foldl (run_round cfg d) (initialState pids)

/-! Basic lemmas about the association list of rounds. -/

theorem lookupRound_setRound_self (rs : List (Nat × RoundSt)) (n : Nat)
    (r : RoundSt) : lookupRound (setRound rs n r) n = some r := by
  induction rs with
  | nil => simp [setRound, lookupRound]
  | cons hd tl ih =>
    obtain ⟨m, r0⟩ := hd
    by_cases h : m = n
    · simp [setRound, lookupRound, h]
    · simp [setRound, lookupRound, h, ih]

theorem lookupRound_setRound_other (rs : List (Nat × RoundSt)) (n k : Nat)
    (r : RoundSt) (h : k ≠ n) :
    lookupRound (setRound rs n r) k = lookupRound rs k := by
  have hnk : ¬ n = k := fun h' => h h'.symm
  induction rs with
  | nil => simp [setRound, lookupRound, hnk]
  | cons hd tl ih =>
    obtain ⟨m, r0⟩ := hd
    by_cases hm : m = n
    · subst hm
      simp [setRound, lookupRound, hnk]
    · simp only [setRound, if_neg hm, lookupRound]
      by_cases hk : m = k
      · simp [hk]
      · simp [hk, ih]

theorem setRound_append_of_absent (rs : List (Nat × RoundSt)) (n : Nat)
    (r : RoundSt) (h : lookupRound rs n = none) :
    setRound rs n r = rs ++ [(n, r)] := by
  induction rs with
  | nil => simp [setRound]
  | cons hd tl ih =>
    obtain ⟨m, r0⟩ := hd
    by_cases hm : m = n
    · simp [lookupRound, hm] at h
    · simp only [lookupRound, if_neg hm] at h
      simp [setRound, hm, ih h]

theorem setRound_snoc_same (rs : List (Nat × RoundSt)) (n : Nat)
    (r0 r : RoundSt) (h : lookupRound rs n = none) :
    setRound (rs ++ [(n, r0)]) n r = rs ++ [(n, r)] := by
  induction rs with
  | nil => simp [setRound]
  | cons hd tl ih =>
    obtain ⟨m, rm⟩ := hd
    by_cases hm : m = n
    · simp [lookupRound, hm] at h
    · simp only [lookupRound, if_neg hm] at h
      simp [setRound, hm, ih h]

theorem lookupRound_append_right (rs rs' : List (Nat × RoundSt)) (n : Nat)
    (h : lookupRound rs n = none) :
    lookupRound (rs ++ rs') n = lookupRound rs' n := by
  induction rs with
  | nil => simp
  | cons hd tl ih =>
    obtain ⟨m, rm⟩ := hd
    by_cases hm : m = n
    · simp [lookupRound, hm] at h
    · simp only [lookupRound, if_neg hm] at h
      simpa [lookupRound, hm] using ih h

/-! Characterizations of the query helpers. -/

theorem findPlayer_mem {st : GameSt} {pid : Nat} {p : PlayerSt}
    (h : findPlayer st pid = some p) : pid ∈ idsOf st.players := by
  have hmem := List.mem_of_find?_eq_some h
  have hpred := List.find?_some h
  have : p.id = pid := by simpa using hpred
  exact this ▸ List.mem_map_of_mem PlayerSt.id hmem

theorem findPlayer_isSome_of_mem {st : GameSt} {pid : Nat}
    (h : pid ∈ idsOf st.players) : (findPlayer st pid).isSome := by
  rw [findPlayer, List.find?_isSome]
  obtain ⟨p, hp, hid⟩ := List.mem_map.mp h
  exact ⟨p, hp, by simp [hid]⟩

theorem roundHasMove_iff {r : RoundSt} {pid : Nat} :
    roundHasMove r pid = true ↔ pid ∈ moverIds r := by
  constructor
  · intro h
    obtain ⟨m, hm, he⟩ := List.any_eq_true.mp h
    exact List.mem_map.mpr ⟨m, hm, by simpa using he⟩
  · intro h
    obtain ⟨m, hm, he⟩ := List.mem_map.mp h
    exact List.any_eq_true.mpr ⟨m, hm, by simp [he]⟩

/-! Counting with distinct ids. -/

theorem nodup_subset_length {l ids : List Nat} (hl : l.Nodup)
    (hsub : ∀ x ∈ l, x ∈ ids) : l.length ≤ ids.length := by
  calc l.length = l.toFinset.card := (List.toFinset_card_of_nodup hl).symm
    _ ≤ ids.toFinset.card := by
        apply Finset.card_le_card
        intro x hx
        rw [List.mem_toFinset] at hx ⊢
        exact hsub x hx
    _ ≤ ids.length := ids.toFinset_card_le

theorem mem_of_nodup_subset_length {l ids : List Nat} (hl : l.Nodup)
    (hids : ids.Nodup) (hsub : ∀ x ∈ l, x ∈ ids)
    (hlen : ids.length ≤ l.length) : ∀ y ∈ ids, y ∈ l := by
  have hsubF : l.toFinset ⊆ ids.toFinset := by
    intro x hx
    rw [List.mem_toFinset] at hx ⊢
    exact hsub x hx
  have hcard : ids.toFinset.card ≤ l.toFinset.card := by
    rw [List.toFinset_card_of_nodup hl, List.toFinset_card_of_nodup hids]
    exact hlen
  have heq : l.toFinset = ids.toFinset :=
    Finset.eq_of_subset_of_card_le hsubF hcard
  intro y hy
  have : y ∈ ids.toFinset := List.mem_toFinset.mpr hy
  rw [← heq, List.mem_toFinset] at this
  exact this

/-! Lemmas about crediting earnings to players. -/

theorem creditFirst_map_id (ps : List PlayerSt) (pid : Nat) (amt : ℚ) :
    idsOf (creditFirst ps pid amt) = idsOf ps := by
  induction ps with
  | nil => rfl
  | cons p rest ih =>
    by_cases h : p.id = pid
    · simp [creditFirst, h, idsOf]
    · simpa [creditFirst, h, idsOf] using ih

theorem creditFirst_length (ps : List PlayerSt) (pid : Nat) (amt : ℚ) :
    (creditFirst ps pid amt).length = ps.length := by
  have := creditFirst_map_id ps pid amt
  simpa [idsOf] using congrArg List.length this

theorem creditFirst_eq_map {ps : List PlayerSt} (pid : Nat) (amt : ℚ)
    (h : (idsOf ps).Nodup) :
    creditFirst ps pid amt = ps.map (fun p =>
      if p.id = pid then { p with totalEarnings := p.totalEarnings + amt }
      else p) := by
  induction ps with
  | nil => rfl
  | cons p rest ih =>
    simp only [idsOf, List.map_cons, List.nodup_cons] at h
    obtain ⟨hnot, hrest⟩ := h
    by_cases hp : p.id = pid
    · subst hp
      simp only [creditFirst, if_pos rfl, List.map_cons, if_pos rfl]
      have hq : ∀ q ∈ rest, (if q.id = p.id then
          { q with totalEarnings := q.totalEarnings + amt } else q) = q := by
        intro q hq
        have hne : q.id ≠ p.id := by
          intro he
          exact hnot (he ▸ List.mem_map_of_mem PlayerSt.id hq)
        simp [hne]
      have := List.map_congr_left (g := id) hq
      simpa using this.symm
    · simp only [creditFirst, if_neg hp, List.map_cons, if_neg hp]
      exact congrArg _ (ih hrest)

theorem creditFold_map_id (ms : List Move) (g : Move → ℚ) (ps : List PlayerSt) :
    idsOf (ms.foldl (fun ps m => creditFirst ps m.playerId (g m)) ps)
      = idsOf ps := by
  induction ms generalizing ps with
  | nil => rfl
  | cons m rest ih => rw [List.foldl_cons, ih, creditFirst_map_id]

theorem creditFold_eq_map (ms : List Move) (g : Move → ℚ) :
    ∀ ps : List PlayerSt, (idsOf ps).Nodup →
    ms.foldl (fun ps m => creditFirst ps m.playerId (g m)) ps
      = ps.map (fun p => { p with totalEarnings := p.totalEarnings
          + ((ms.filter (fun m => m.playerId == p.id)).map g).sum }) := by
  induction ms with
  | nil =>
    intro ps _
    rw [List.foldl_nil]
    have h : (fun (p : PlayerSt) => { p with totalEarnings := p.totalEarnings
        + ((([] : List Move).filter (fun m => m.playerId == p.id)).map g).sum })
        = fun p => p := by
      funext p
      simp only [List.filter_nil, List.map_nil, List.sum_nil, add_zero]
    rw [h, List.map_id']
  | cons m rest ih =>
    intro ps hnd
    rw [List.foldl_cons, creditFirst_eq_map m.playerId (g m) hnd]
    have hnd2 : (idsOf (ps.map (fun p =>
        if p.id = m.playerId then { p with totalEarnings := p.totalEarnings + g m }
        else p))).Nodup := by
      have hids : idsOf (ps.map (fun p =>
          if p.id = m.playerId then { p with totalEarnings := p.totalEarnings + g m }
          else p)) = idsOf ps := by
        unfold idsOf
        rw [List.map_map]
        apply List.map_congr_left
        intro p _
        by_cases h : p.id = m.playerId <;> simp [h]
      rw [hids]; exact hnd
    rw [ih _ hnd2, List.map_map]
    apply List.map_congr_left
    intro p _
    by_cases h : p.id = m.playerId
    · have hb : (m.playerId == p.id) = true := by simp [h]
      simp only [Function.comp, if_pos h, List.filter_cons, hb, if_pos,
        List.map_cons, List.sum_cons]
      simp [add_assoc]
    · have hb : (m.playerId == p.id) = false := by
        simp [Ne.symm h]
      simp only [Function.comp, if_neg h, List.filter_cons, hb]
      simp

/-! Characterizations of process_move by validation path. -/

theorem process_move_not_player {cfg : Config} {st : GameSt} {pid : Nat}
    {t : Int} (h : findPlayer st pid = none) :
    process_move cfg st pid t = (MoveOutcome.rejected MoveErr.playerNotFound, st) := by
  simp [process_move, h]

theorem process_move_out_of_range {cfg : Config} {st : GameSt} {pid : Nat}
    {t : Int} {p : PlayerSt} (h : findPlayer st pid = some p)
    (h2 : t < 0 ∨ t > cfg.tokensPerRound) :
    process_move cfg st pid t = (MoveOutcome.rejected MoveErr.invalidInvestment, st) := by
  simp [process_move, h, h2]

theorem process_move_duplicate {cfg : Config} {st : GameSt} {pid : Nat}
    {t : Int} {p : PlayerSt} (h : findPlayer st pid = some p)
    (h2 : ¬(t < 0 ∨ t > cfg.tokensPerRound))
    (h3 : roundHasMove ((lookupRound st.rounds st.currentRound).getD emptyRound) pid = true) :
    process_move cfg st pid t = (MoveOutcome.rejected MoveErr.duplicateMove, st) := by
  simp [process_move, h, h2, h3]

theorem process_move_recorded {cfg : Config} {st : GameSt} {pid : Nat}
    {t : Int} {p : PlayerSt} (h : findPlayer st pid = some p)
    (h2 : ¬(t < 0 ∨ t > cfg.tokensPerRound))
    (h3 : roundHasMove ((lookupRound st.rounds st.currentRound).getD emptyRound) pid = false) :
    process_move cfg st pid t =
      (let cur := (lookupRound st.rounds st.currentRound).getD emptyRound
       let st1 : GameSt :=
         { st with rounds := setRound st.rounds st.currentRound
                     { cur with moves := cur.moves ++ [mkMove cfg pid t] } }
       if is_round_complete st1 st.currentRound then
         let st2 := calculate_round_results cfg st1 st.currentRound
         if (st2.currentRound : Int) ≥ (cfg.maxRounds : Int) - 1 then
           (MoveOutcome.gameComplete, finalize_game cfg st2)
         else (MoveOutcome.roundComplete (advance_round st2).currentRound, advance_round st2)
       else (MoveOutcome.moveAccepted, st1)) := by
  simp [process_move, h, h2, h3]

theorem process_move_recorded_fst {cfg : Config} {st : GameSt} {pid : Nat}
    {t : Int} {p : PlayerSt} (h : findPlayer st pid = some p)
    (h2 : ¬(t < 0 ∨ t > cfg.tokensPerRound))
    (h3 : roundHasMove ((lookupRound st.rounds st.currentRound).getD emptyRound) pid = false) :
    ∀ e, (process_move cfg st pid t).1 ≠ MoveOutcome.rejected e := by
  intro e
  rw [process_move_recorded h h2 h3]
  dsimp only
  split
  · split <;> simp
  · simp

theorem calculate_round_results_spec (cfg : Config) (st : GameSt) (n : Nat)
    (r : RoundSt) (hr : lookupRound st.rounds n = some r)
    (hnd : (idsOf st.players).Nodup) :
    lookupRound (calculate_round_results cfg st n).rounds n =
        some (settledRound cfg r)
    ∧ (calculate_round_results cfg st n).players =
        settledPlayers cfg r st.players := by
  simp only [calculate_round_results, hr, settledRound, settledPlayers,
    settleMove, roundTotal]
  exact ⟨lookupRound_setRound_self _ _ _,
    creditFold_eq_map r.moves (earningsOf cfg ((r.moves.map Move.tokensInvested).sum))
      st.players hnd⟩

theorem calculate_round_results_other (cfg : Config) (st : GameSt) (n k : Nat)
    (h : k ≠ n) :
    lookupRound (calculate_round_results cfg st n).rounds k =
      lookupRound st.rounds k := by
  unfold calculate_round_results
  cases hr : lookupRound st.rounds n with
  | none => rfl
  | some r => exact lookupRound_setRound_other _ _ _ _ h

theorem calculate_round_results_ids (cfg : Config) (st : GameSt) (n : Nat) :
    idsOf (calculate_round_results cfg st n).players = idsOf st.players := by
  unfold calculate_round_results
  cases hr : lookupRound st.rounds n with
  | none => rfl
  | some r => exact creditFold_map_id _ _ _

theorem calculate_round_results_currentRound (cfg : Config) (st : GameSt)
    (n : Nat) :
    (calculate_round_results cfg st n).currentRound = st.currentRound := by
  unfold calculate_round_results
  cases hr : lookupRound st.rounds n with
  | none => rfl
  | some r => rfl

/-- C1: settlement of a round writes onto each move the earnings
tokensKept * keepValue + tokensInvested * investValue
+ totalInvested * socialValue, where totalInvested sums tokensInvested over
all moves of the round (the investor's own contribution included), stamps
the round settled, and adds each move's earnings to the owning player's
totalEarnings; in particular, with the default configuration and
investments {0, 5, 5, 0}, the players investing 0 end with earnings 2.00
and the players investing 5 with 1.50. -/
theorem C1_settlement_formula :
    (∀ (cfg : Config) (st : GameSt) (n : Nat) (r : RoundSt),
      lookupRound st.rounds n = some r → (idsOf st.players).Nodup →
      lookupRound (calculate_round_results cfg st n).rounds n =
          some (settledRound cfg r)
      ∧ (calculate_round_results cfg st n).players =
          settledPlayers cfg r st.players)
  ∧ ((runMoves defaultConfig (initialState [0, 1, 2, 3])
        [(0, 0), (1, 5), (2, 5), (3, 0)]).players.map PlayerSt.totalEarnings
      = [2, 3 / 2, 3 / 2, 2]) := by
  constructor
  · intro cfg st n r hr hnd
    exact calculate_round_results_spec cfg st n r hr hnd
  · norm_num [runMoves, process_move, findPlayer, lookupRound, setRound,
      roundHasMove, is_round_complete, movesCount, calculate_round_results,
      earningsOf, creditFirst, advance_round, initialState, defaultConfig,
      emptyRound, mkMove]

/-- Witness for C1: the settlement theorem instantiated at a concrete
one-player state whose round 0 holds one unsettled move of 3 tokens. -/
theorem C1_settlement_formula_witness :
    lookupRound w1State.rounds 0 = some w1Round
    ∧ (idsOf w1State.players).Nodup
    ∧ (lookupRound (calculate_round_results defaultConfig w1State 0).rounds 0 =
          some (settledRound defaultConfig w1Round)
      ∧ (calculate_round_results defaultConfig w1State 0).players =
          settledPlayers defaultConfig w1Round w1State.players) :=
  ⟨by decide, by decide,
    C1_settlement_formula.1 defaultConfig w1State 0 w1Round (by decide) (by decide)⟩

/-- C6: a move submission rejected with a validation error leaves the game
state unchanged. -/
theorem C6_rejection_preserves_state :
    ∀ (cfg : Config) (st : GameSt) (pid : Nat) (t : Int) (e : MoveErr),
      (process_move cfg st pid t).1 = MoveOutcome.rejected e →
      (process_move cfg st pid t).2 = st := by
  intro cfg st pid t e h
  cases hf : findPlayer st pid with
  | none => rw [process_move_not_player hf]
  | some q =>
    by_cases h2 : (t < 0 ∨ t > cfg.tokensPerRound)
    · rw [process_move_out_of_range hf h2]
    · cases h3 : roundHasMove ((lookupRound st.rounds st.currentRound).getD emptyRound) pid with
      | true => rw [process_move_duplicate hf h2 h3]
      | false => exact absurd h (process_move_recorded_fst hf h2 h3 e)

/-- Witness for C6: a duplicate and out-of-range submission against a
concrete state is rejected and leaves the state unchanged. -/
theorem C6_rejection_preserves_state_witness :
    (process_move defaultConfig dupState 0 (-1)).1 =
      MoveOutcome.rejected MoveErr.invalidInvestment
    ∧ (process_move defaultConfig dupState 0 (-1)).2 = dupState :=
  ⟨by decide,
    C6_rejection_preserves_state defaultConfig dupState 0 (-1)
      MoveErr.invalidInvestment (by decide)⟩

/-- C5 counterexample: a submission that is simultaneously a duplicate move
and an out-of-range investment is rejected on the out-of-range ground, not
the duplicate ground, so the claimed check order (duplicate before bounds)
does not match the code. -/
theorem C5_counterexample :
    roundHasMove ((lookupRound dupState.rounds dupState.currentRound).getD emptyRound) 0 = true
    ∧ (findPlayer dupState 0).isSome
    ∧ (lookupRound dupState.rounds dupState.currentRound).isSome
    ∧ (process_move defaultConfig dupState 0 (-1)).1 =
        MoveOutcome.rejected MoveErr.invalidInvestment
    ∧ MoveOutcome.rejected MoveErr.invalidInvestment ≠
        MoveOutcome.rejected MoveErr.duplicateMove := by
  refine ⟨by decide, by decide, by decide, by decide, by decide⟩

/-- C5 (amended): process_move checks its rejection conditions in this
order: (1) the player does not belong to this game, (2) the proposed
investment is outside the configured bounds, (3) a move already exists for
this (round, player) pair; there is no round-closed check, and for every
submission failing several conditions the reported reason is the earliest
in that order. -/
theorem C5_validation_order (cfg : Config) (st : GameSt) (pid : Nat) (t : Int) :
    (findPlayer st pid = none →
       process_move cfg st pid t = (MoveOutcome.rejected MoveErr.playerNotFound, st))
    ∧ ((findPlayer st pid).isSome → (t < 0 ∨ t > cfg.tokensPerRound) →
       process_move cfg st pid t = (MoveOutcome.rejected MoveErr.invalidInvestment, st))
    ∧ ((findPlayer st pid).isSome → ¬(t < 0 ∨ t > cfg.tokensPerRound) →
       roundHasMove ((lookupRound st.rounds st.currentRound).getD emptyRound) pid = true →
       process_move cfg st pid t = (MoveOutcome.rejected MoveErr.duplicateMove, st)) := by
  refine ⟨fun h => process_move_not_player h, fun h h2 => ?_, fun h h2 h3 => ?_⟩
  · obtain ⟨q, hq⟩ := Option.isSome_iff_exists.mp h
    exact process_move_out_of_range hq h2
  · obtain ⟨q, hq⟩ := Option.isSome_iff_exists.mp h
    exact process_move_duplicate hq h2 h3

/-- Witness for C5 (amended): the bounds-before-duplicate order exercised
at a concrete state where both conditions fail at once. -/
theorem C5_validation_order_witness :
    (findPlayer dupState 0).isSome
    ∧ ((-1 : Int) < 0 ∨ (-1 : Int) > defaultConfig.tokensPerRound)
    ∧ process_move defaultConfig dupState 0 (-1) =
        (MoveOutcome.rejected MoveErr.invalidInvestment, dupState) :=
  ⟨by decide, by decide,
    (C5_validation_order defaultConfig dupState 0 (-1)).2.1 (by decide) (by decide)⟩

/-! The reachability invariant preserved by process_move: player ids are
distinct, each round's movers are distinct game players, settlement ran at
most once per round, it ran exactly once on a round iff the round holds a
full complement of moves, and completedAt marks exactly the settled
rounds. -/

structure EngineInv (st : GameSt) : Prop where
  playersNodup : (idsOf st.players).Nodup
  moversNodup : ∀ n r, lookupRound st.rounds n = some r → (moverIds r).Nodup
  moversMem : ∀ n r, lookupRound st.rounds n = some r →
    ∀ i ∈ moverIds r, i ∈ idsOf st.players
  settleLe : ∀ n r, lookupRound st.rounds n = some r → r.settleCount ≤ 1
  settleIff : ∀ n r, lookupRound st.rounds n = some r →
    (r.settleCount = 1 ↔ r.moves.length = st.players.length)
  completedIff : ∀ n r, lookupRound st.rounds n = some r →
    (r.completedAt = true ↔ r.settleCount = 1)

theorem moverIds_length (r : RoundSt) :
    (moverIds r).length = r.moves.length := by
  simp [moverIds]

theorem EngineInv.movesLe {st : GameSt} (hinv : EngineInv st) {n : Nat} {r : RoundSt}
    (h : lookupRound st.rounds n = some r) :
    r.moves.length ≤ st.players.length := by
  have := nodup_subset_length (hinv.moversNodup n r h) (hinv.moversMem n r h)
  simpa [moverIds, idsOf] using this

theorem EngineInv.allMoved {st : GameSt} (hinv : EngineInv st) {n : Nat} {r : RoundSt}
    (h : lookupRound st.rounds n = some r)
    (hfull : r.moves.length = st.players.length) :
    ∀ i ∈ idsOf st.players, i ∈ moverIds r := by
  apply mem_of_nodup_subset_length (hinv.moversNodup n r h) hinv.playersNodup
    (hinv.moversMem n r h)
  simp [moverIds, idsOf, hfull]

theorem EngineInv.count_zero_of_not_moved {st : GameSt} (hinv : EngineInv st) {n : Nat}
    {r : RoundSt} (h : lookupRound st.rounds n = some r) {pid : Nat}
    (hmem : pid ∈ idsOf st.players) (hno : pid ∉ moverIds r) :
    r.settleCount = 0 := by
  by_contra hne
  have h1 : r.settleCount = 1 := by
    have := hinv.settleLe n r h
    omega
  exact hno (hinv.allMoved h ((hinv.settleIff n r h).mp h1) pid hmem)

theorem EngineInv.set_round {st : GameSt} (hinv : EngineInv st) (n : Nat) (r' : RoundSt)
    (hnodup : (moverIds r').Nodup)
    (hmem : ∀ i ∈ moverIds r', i ∈ idsOf st.players)
    (hle : r'.settleCount ≤ 1)
    (hiff : r'.settleCount = 1 ↔ r'.moves.length = st.players.length)
    (hcomp : r'.completedAt = true ↔ r'.settleCount = 1) :
    EngineInv { st with rounds := setRound st.rounds n r' } := by
  have caseSplit : ∀ (k : Nat) (r : RoundSt),
      lookupRound (setRound st.rounds n r') k = some r →
      r = r' ∨ lookupRound st.rounds k = some r := by
    intro k r hk
    by_cases h : k = n
    · subst h
      rw [lookupRound_setRound_self] at hk
      exact Or.inl (Option.some.inj hk).symm
    · rw [lookupRound_setRound_other _ _ _ _ h] at hk
      exact Or.inr hk
  constructor
  · exact hinv.playersNodup
  · intro k r hk
    rcases caseSplit k r hk with h | h
    · exact h ▸ hnodup
    · exact hinv.moversNodup k r h
  · intro k r hk
    rcases caseSplit k r hk with h | h
    · exact h ▸ hmem
    · exact hinv.moversMem k r h
  · intro k r hk
    rcases caseSplit k r hk with h | h
    · exact h ▸ hle
    · exact hinv.settleLe k r h
  · intro k r hk
    rcases caseSplit k r hk with h | h
    · exact h ▸ hiff
    · exact hinv.settleIff k r h
  · intro k r hk
    rcases caseSplit k r hk with h | h
    · exact h ▸ hcomp
    · exact hinv.completedIff k r h

theorem EngineInv.advance {st : GameSt} (h : EngineInv st) :
    EngineInv (advance_round st) :=
  ⟨h.playersNodup, h.moversNodup, h.moversMem, h.settleLe, h.settleIff,
    h.completedIff⟩

theorem EngineInv.finalize {st : GameSt} (h : EngineInv st) (cfg : Config) :
    EngineInv (finalize_game cfg st) :=
  ⟨h.playersNodup, h.moversNodup, h.moversMem, h.settleLe, h.settleIff,
    h.completedIff⟩

theorem moverIds_settledRound (cfg : Config) (r : RoundSt) :
    moverIds (settledRound cfg r) = moverIds r := by
  simp [moverIds, settledRound, settleMove]

theorem settledPlayers_ids (cfg : Config) (r : RoundSt) (ps : List PlayerSt) :
    idsOf (settledPlayers cfg r ps) = idsOf ps := by
  simp only [settledPlayers, idsOf, List.map_map]
  rfl

theorem movesCount_set_self (st : GameSt) (n : Nat) (r' : RoundSt) :
    movesCount { st with rounds := setRound st.rounds n r' } n
      = r'.moves.length := by
  simp [movesCount, lookupRound_setRound_self]

theorem is_round_complete_true_iff (st : GameSt) (n : Nat) :
    is_round_complete st n = true ↔ movesCount st n ≥ st.players.length := by
  simp [is_round_complete]

theorem EngineInv.insert_and_settle {st : GameSt} (hinv : EngineInv st)
    (cfg : Config) (n : Nat) (r' : RoundSt)
    (hnodup : (moverIds r').Nodup)
    (hmem : ∀ i ∈ moverIds r', i ∈ idsOf st.players)
    (hc0 : r'.settleCount = 0)
    (hfull : r'.moves.length = st.players.length) :
    EngineInv (calculate_round_results cfg
      { st with rounds := setRound st.rounds n r' } n) := by
  have hl1 : lookupRound (setRound st.rounds n r') n = some r' :=
    lookupRound_setRound_self _ _ _
  obtain ⟨hlook, hplayers⟩ := calculate_round_results_spec cfg
    { st with rounds := setRound st.rounds n r' } n r' hl1 hinv.playersNodup
  have hids : idsOf (calculate_round_results cfg
      { st with rounds := setRound st.rounds n r' } n).players
      = idsOf st.players :=
    calculate_round_results_ids cfg _ n
  have hlen : (calculate_round_results cfg
      { st with rounds := setRound st.rounds n r' } n).players.length
      = st.players.length := by
    have := congrArg List.length hids
    simpa [idsOf] using this
  have hother : ∀ k, k ≠ n →
      lookupRound (calculate_round_results cfg
        { st with rounds := setRound st.rounds n r' } n).rounds k
      = lookupRound st.rounds k := by
    intro k hk
    rw [calculate_round_results_other cfg _ n k hk]
    exact lookupRound_setRound_other _ _ _ _ hk
  constructor
  · rw [hids]; exact hinv.playersNodup
  · intro k rr hk
    by_cases hkn : k = n
    · subst hkn
      have heq := Option.some.inj (hlook.symm.trans hk)
      rw [← heq, moverIds_settledRound]
      exact hnodup
    · rw [hother k hkn] at hk
      exact hinv.moversNodup k rr hk
  · intro k rr hk
    rw [hids]
    by_cases hkn : k = n
    · subst hkn
      have heq := Option.some.inj (hlook.symm.trans hk)
      rw [← heq, moverIds_settledRound]
      exact hmem
    · rw [hother k hkn] at hk
      exact hinv.moversMem k rr hk
  · intro k rr hk
    by_cases hkn : k = n
    · subst hkn
      have heq := Option.some.inj (hlook.symm.trans hk)
      rw [← heq]
      simp [settledRound, hc0]
    · rw [hother k hkn] at hk
      exact hinv.settleLe k rr hk
  · intro k rr hk
    rw [hlen]
    by_cases hkn : k = n
    · subst hkn
      have heq := Option.some.inj (hlook.symm.trans hk)
      rw [← heq]
      simp [settledRound, hc0, hfull]
    · rw [hother k hkn] at hk
      exact hinv.settleIff k rr hk
  · intro k rr hk
    by_cases hkn : k = n
    · subst hkn
      have heq := Option.some.inj (hlook.symm.trans hk)
      rw [← heq]
      simp [settledRound, hc0]
    · rw [hother k hkn] at hk
      exact hinv.completedIff k rr hk

theorem process_move_recorded_snd {cfg : Config} {st : GameSt} {pid : Nat}
    {t : Int} {p : PlayerSt} (h : findPlayer st pid = some p)
    (h2 : ¬(t < 0 ∨ t > cfg.tokensPerRound))
    (h3 : roundHasMove ((lookupRound st.rounds st.currentRound).getD emptyRound) pid = false) :
    (process_move cfg st pid t).2 =
      (let cur := (lookupRound st.rounds st.currentRound).getD emptyRound
       let st1 : GameSt :=
         { st with rounds := setRound st.rounds st.currentRound
                     { cur with moves := cur.moves ++ [mkMove cfg pid t] } }
       if is_round_complete st1 st.currentRound then
         let st2 := calculate_round_results cfg st1 st.currentRound
         if (st2.currentRound : Int) ≥ (cfg.maxRounds : Int) - 1 then
           finalize_game cfg st2
         else advance_round st2
       else st1) := by
  rw [process_move_recorded h h2 h3]
  dsimp only
  split
  · split <;> rfl
  · rfl

theorem EngineInv.process_move_step {st : GameSt} (hinv : EngineInv st)
    (cfg : Config) (pid : Nat) (t : Int) :
    EngineInv (process_move cfg st pid t).2 := by
  cases hf : findPlayer st pid with
  | none => rw [process_move_not_player hf]; exact hinv
  | some p =>
    by_cases h2 : (t < 0 ∨ t > cfg.tokensPerRound)
    · rw [process_move_out_of_range hf h2]; exact hinv
    · cases h3 : roundHasMove ((lookupRound st.rounds st.currentRound).getD emptyRound) pid with
      | true => rw [process_move_duplicate hf h2 h3]; exact hinv
      | false =>
        rw [process_move_recorded_snd hf h2 h3]
        dsimp only
        have hpid : pid ∈ idsOf st.players := findPlayer_mem hf
        set cur := (lookupRound st.rounds st.currentRound).getD emptyRound with hcurdef
        have hnomem : pid ∉ moverIds cur := by
          intro hmem
          rw [← roundHasMove_iff] at hmem
          rw [hmem] at h3
          exact Bool.noConfusion h3
        have hcurfacts : cur.settleCount = 0 ∧ cur.completedAt = false
            ∧ (moverIds cur).Nodup ∧ (∀ i ∈ moverIds cur, i ∈ idsOf st.players) := by
          cases hl : lookupRound st.rounds st.currentRound with
          | none =>
            rw [hcurdef, hl]
            simp [emptyRound, moverIds]
          | some r =>
            have hcr : cur = r := by rw [hcurdef, hl]; rfl
            rw [hcr]
            rw [hcr] at hnomem
            refine ⟨hinv.count_zero_of_not_moved hl hpid hnomem, ?_,
              hinv.moversNodup _ r hl, hinv.moversMem _ r hl⟩
            have h1 := hinv.completedIff _ r hl
            have h0 := hinv.count_zero_of_not_moved hl hpid hnomem
            rcases hcb : r.completedAt with _ | _
            · rfl
            · exact absurd (h0 ▸ (h1.mp hcb)) (by omega)
        obtain ⟨hc0, hcf, hcnd, hcmem⟩ := hcurfacts
        set r' : RoundSt := { cur with moves := cur.moves ++ [mkMove cfg pid t] } with hr'
        have hmids : moverIds r' = moverIds cur ++ [pid] := by
          rw [hr']
          simp [moverIds, mkMove]
        have hnodup2 : (moverIds r').Nodup := by
          rw [hmids]
          simp [List.nodup_append, hcnd, hnomem]
        have hmem2 : ∀ i ∈ moverIds r', i ∈ idsOf st.players := by
          rw [hmids]
          intro i hi
          rcases List.mem_append.mp hi with hi | hi
          · exact hcmem i hi
          · rw [List.mem_singleton.mp hi]; exact hpid
        have hrc0 : r'.settleCount = 0 := by rw [hr']; exact hc0
        have hrcf : r'.completedAt = false := by rw [hr']; exact hcf
        set st1 : GameSt := { st with rounds := setRound st.rounds st.currentRound r' } with hst1
        by_cases hic : is_round_complete st1 st.currentRound = true
        · rw [if_pos hic]
          have hfull : r'.moves.length = st.players.length := by
            have hge := (is_round_complete_true_iff st1 st.currentRound).mp hic
            rw [hst1, movesCount_set_self] at hge
            have hle : (moverIds r').length ≤ (idsOf st.players).length :=
              nodup_subset_length hnodup2 hmem2
            rw [moverIds_length] at hle
            have hlids : (idsOf st.players).length = st.players.length := by
              simp [idsOf]
            rw [hlids] at hle
            exact le_antisymm hle hge
          have hsettled := hinv.insert_and_settle cfg st.currentRound r'
            hnodup2 hmem2 hrc0 hfull
          rw [← hst1] at hsettled
          split
          · exact hsettled.finalize cfg
          · exact hsettled.advance
        · rw [if_neg hic]
          rw [hst1]
          apply hinv.set_round st.currentRound r' hnodup2 hmem2 (by omega) ?_ ?_
          · rw [hrc0]
            constructor
            · intro h; exact absurd h (by omega)
            · intro hlen
              exfalso
              apply hic
              rw [is_round_complete_true_iff, hst1, movesCount_set_self]
              dsimp only
              rw [hr'] at hlen
              dsimp only at hlen
              omega
          · rw [hrcf, hrc0]
            simp

theorem initialState_ids (pids : List Nat) :
    idsOf (initialState pids).players = pids := by
  simp only [initialState, idsOf, List.map_map]
  have h : (PlayerSt.id ∘ fun i => ({ id := i, totalEarnings := 0 } : PlayerSt))
      = fun i => i := rfl
  rw [h, List.map_id']

theorem engineInv_initial (pids : List Nat) (h : pids.Nodup) :
    EngineInv (initialState pids) := by
  refine ⟨?_, ?_, ?_, ?_, ?_, ?_⟩
  · rw [initialState_ids]; exact h
  all_goals intro n r hr; simp [initialState, lookupRound] at hr

theorem runMoves_nil (cfg : Config) (st : GameSt) : runMoves cfg st [] = st := rfl

theorem runMoves_cons (cfg : Config) (st : GameSt) (m : Nat × Int)
    (rest : List (Nat × Int)) :
    runMoves cfg st (m :: rest)
      = runMoves cfg (process_move cfg st m.1 m.2).2 rest := rfl

theorem runMoves_append (cfg : Config) (st : GameSt)
    (l1 l2 : List (Nat × Int)) :
    runMoves cfg st (l1 ++ l2) = runMoves cfg (runMoves cfg st l1) l2 := by
  simp [runMoves, List.foldl_append]

theorem EngineInv.runMoves_fold {st : GameSt} (hinv : EngineInv st)
    (cfg : Config) (ms : List (Nat × Int)) : EngineInv (runMoves cfg st ms) := by
  induction ms generalizing st with
  | nil => exact hinv
  | cons m rest ih =>
    rw [runMoves_cons]
    exact ih (hinv.process_move_step cfg m.1 m.2)

theorem process_move_ids (cfg : Config) (st : GameSt) (pid : Nat) (t : Int) :
    idsOf (process_move cfg st pid t).2.players = idsOf st.players := by
  cases hf : findPlayer st pid with
  | none => rw [process_move_not_player hf]
  | some p =>
    by_cases h2 : (t < 0 ∨ t > cfg.tokensPerRound)
    · rw [process_move_out_of_range hf h2]
    · cases h3 : roundHasMove ((lookupRound st.rounds st.currentRound).getD emptyRound) pid with
      | true => rw [process_move_duplicate hf h2 h3]
      | false =>
        rw [process_move_recorded_snd hf h2 h3]
        dsimp only
        split
        · split
          · exact calculate_round_results_ids cfg _ _
          · exact calculate_round_results_ids cfg _ _
        · rfl

theorem runMoves_ids (cfg : Config) (st : GameSt) (ms : List (Nat × Int)) :
    idsOf (runMoves cfg st ms).players = idsOf st.players := by
  induction ms generalizing st with
  | nil => rfl
  | cons m rest ih =>
    rw [runMoves_cons, ih, process_move_ids]

theorem full_round_rejects {cfg : Config} {st : GameSt} (hinv : EngineInv st)
    {r : RoundSt} (hl : lookupRound st.rounds st.currentRound = some r)
    (hfull : r.moves.length = st.players.length) (pid : Nat) (t : Int) :
    ∃ e, process_move cfg st pid t = (MoveOutcome.rejected e, st) := by
  cases hf : findPlayer st pid with
  | none => exact ⟨_, process_move_not_player hf⟩
  | some p =>
    by_cases h2 : (t < 0 ∨ t > cfg.tokensPerRound)
    · exact ⟨_, process_move_out_of_range hf h2⟩
    · have hmove : roundHasMove ((lookupRound st.rounds st.currentRound).getD emptyRound) pid = true := by
        rw [hl]
        exact roundHasMove_iff.mpr (hinv.allMoved hl hfull pid (findPlayer_mem hf))
      exact ⟨_, process_move_duplicate hf h2 hmove⟩

/-- C2: along any sequence of process_move submissions from a fresh game,
settlement runs at most once on every round, and a round carries the
completedAt stamp exactly when its one settlement has run. -/
theorem C2_at_most_one_settlement :
    ∀ (cfg : Config) (pids : List Nat), pids.Nodup →
    ∀ (ms : List (Nat × Int)) (n : Nat) (r : RoundSt),
      lookupRound (runMoves cfg (initialState pids) ms).rounds n = some r →
      r.settleCount ≤ 1 ∧ (r.completedAt = true ↔ r.settleCount = 1) := by
  intro cfg pids hnd ms n r hl
  have hinv := (engineInv_initial pids hnd).runMoves_fold cfg ms
  exact ⟨hinv.settleLe n r hl, hinv.completedIff n r hl⟩

/-- Witness for C2: the settlement bound read off a concrete two-player
game after one submission. -/
theorem C2_at_most_one_settlement_witness :
    ([0, 1] : List Nat).Nodup
    ∧ lookupRound (runMoves defaultConfig (initialState [0, 1]) [(0, 3)]).rounds 0
        = some w1Round
    ∧ (w1Round.settleCount ≤ 1 ∧ (w1Round.completedAt = true ↔ w1Round.settleCount = 1)) :=
  ⟨by decide, by decide,
    C2_at_most_one_settlement defaultConfig [0, 1] (by decide) [(0, 3)] 0 w1Round (by decide)⟩

/-- C3: in a game with exactly the fixed set of players, a round is stamped
settled exactly when it holds one move per player, movers are distinct game
players, and any further submission against a full current round or by a
player who already moved is rejected with the state unchanged. -/
theorem C3_settle_iff_full :
    ∀ (cfg : Config) (pids : List Nat), pids.Nodup →
    ∀ (ms : List (Nat × Int)),
    (∀ (n : Nat) (r : RoundSt),
        lookupRound (runMoves cfg (initialState pids) ms).rounds n = some r →
        ((r.completedAt = true ↔ r.moves.length = pids.length)
         ∧ (moverIds r).Nodup
         ∧ ∀ i ∈ moverIds r, i ∈ pids))
    ∧ (∀ (pid : Nat) (t : Int) (r : RoundSt),
        lookupRound (runMoves cfg (initialState pids) ms).rounds
            (runMoves cfg (initialState pids) ms).currentRound = some r →
        (r.moves.length = pids.length ∨ roundHasMove r pid = true) →
        ∃ e, process_move cfg (runMoves cfg (initialState pids) ms) pid t
              = (MoveOutcome.rejected e, runMoves cfg (initialState pids) ms)) := by
  intro cfg pids hnd ms
  have hinv := (engineInv_initial pids hnd).runMoves_fold cfg ms
  have hids : idsOf (runMoves cfg (initialState pids) ms).players = pids := by
    rw [runMoves_ids, initialState_ids]
  have hplen : (runMoves cfg (initialState pids) ms).players.length = pids.length := by
    have := congrArg List.length hids
    simpa [idsOf] using this
  constructor
  · intro n r hl
    refine ⟨?_, hinv.moversNodup n r hl, ?_⟩
    · rw [hinv.completedIff n r hl, hinv.settleIff n r hl, hplen]
    · intro i hi
      have := hinv.moversMem n r hl i hi
      rwa [hids] at this
  · intro pid t r hl hcond
    rcases hcond with hfull | hmove
    · exact full_round_rejects hinv hl (by rw [hplen]; exact hfull) pid t
    · cases hf : findPlayer (runMoves cfg (initialState pids) ms) pid with
      | none => exact ⟨_, process_move_not_player hf⟩
      | some p =>
        by_cases h2 : (t < 0 ∨ t > cfg.tokensPerRound)
        · exact ⟨_, process_move_out_of_range hf h2⟩
        · have hmove2 : roundHasMove
              ((lookupRound (runMoves cfg (initialState pids) ms).rounds
                (runMoves cfg (initialState pids) ms).currentRound).getD emptyRound) pid = true := by
            rw [hl]
            exact hmove
          exact ⟨_, process_move_duplicate hf h2 hmove2⟩

/-- Witness for C3: the settle-iff-full property and the duplicate
rejection read off a concrete two-player game after one submission. -/
theorem C3_settle_iff_full_witness :
    ([0, 1] : List Nat).Nodup
    ∧ lookupRound (runMoves defaultConfig (initialState [0, 1]) [(0, 3)]).rounds 0
        = some w1Round
    ∧ ((w1Round.completedAt = true ↔ w1Round.moves.length = [0, 1].length)
        ∧ (moverIds w1Round).Nodup ∧ ∀ i ∈ moverIds w1Round, i ∈ [0, 1])
    ∧ roundHasMove w1Round 0 = true
    ∧ ∃ e, process_move defaultConfig (runMoves defaultConfig (initialState [0, 1]) [(0, 3)]) 0 5
            = (MoveOutcome.rejected e, runMoves defaultConfig (initialState [0, 1]) [(0, 3)]) :=
  ⟨by decide, by decide,
    (C3_settle_iff_full defaultConfig [0, 1] (by decide) [(0, 3)]).1 0 w1Round (by decide),
    by decide,
    (C3_settle_iff_full defaultConfig [0, 1] (by decide) [(0, 3)]).2 0 5 w1Round (by decide)
      (Or.inr (by decide))⟩

/-- C8: the results persisted at finalization carry ranks 1..G in order
(1 = highest finalEarnings), their player ids are a permutation of the
game's players (one result per player), their finalEarnings are sorted
descending, and there are exactly G of them. -/
theorem C8_final_ranking (cfg : Config) (st : GameSt) :
    ((compute_results cfg st).map ResultRec.performanceRank
        = List.range' 1 st.players.length)
    ∧ ((compute_results cfg st).map ResultRec.playerId).Perm
        (st.players.map PlayerSt.id)
    ∧ List.Sorted (fun a b : ℚ => b ≤ a)
        ((compute_results cfg st).map ResultRec.finalEarnings)
    ∧ (compute_results cfg st).length = st.players.length
    ∧ (finalize_game cfg st).results = st.results ++ compute_results cfg st := by
  have hsortlen : (st.players.insertionSort earnGe).length = st.players.length :=
    List.length_insertionSort earnGe st.players
  refine ⟨?_, ?_, ?_, ?_, rfl⟩
  · rw [compute_results]
    rw [List.map_map]
    have h1 : (ResultRec.performanceRank ∘ fun ip => mkResult cfg st (ip.1 + 1) ip.2)
        = (fun i => i + 1) ∘ Prod.fst := rfl
    rw [h1, ← List.map_map, List.enum_map_fst, hsortlen,
      List.range'_eq_map_range]
    apply List.map_congr_left
    intro a _
    omega
  · rw [compute_results]
    rw [List.map_map]
    have h1 : (ResultRec.playerId ∘ fun ip => mkResult cfg st (ip.1 + 1) ip.2)
        = PlayerSt.id ∘ Prod.snd := rfl
    rw [h1, ← List.map_map, List.enum_map_snd]
    exact (List.perm_insertionSort earnGe st.players).map PlayerSt.id
  · rw [compute_results]
    rw [List.map_map]
    have h1 : (ResultRec.finalEarnings ∘ fun ip => mkResult cfg st (ip.1 + 1) ip.2)
        = PlayerSt.totalEarnings ∘ Prod.snd := rfl
    rw [h1, ← List.map_map, List.enum_map_snd]
    exact List.Pairwise.map PlayerSt.totalEarnings (fun a b h => h)
      (List.sorted_insertionSort earnGe st.players)
  · rw [compute_results]
    rw [List.length_map, List.enum_length, hsortlen]

/-- C9: the decision generator is total and always yields a value inside
[0, tokensPerRound]: a parsed external value is clamped into range, and an
unparseable response or a raised call falls back to the random draw, whose
contract is to lie in range.  A malformed or missing external response
therefore never aborts the round. -/
theorem C9_decision_in_range (cfg : Config) (devMode : Bool) (randVal : Int)
    (ext : ExtOutcome) (h0 : 0 ≤ randVal) (h1 : randVal ≤ cfg.tokensPerRound) :
    0 ≤ generate_ai_move cfg devMode randVal ext
    ∧ generate_ai_move cfg devMode randVal ext ≤ cfg.tokensPerRound := by
  unfold generate_ai_move
  split
  · exact ⟨h0, h1⟩
  · cases ext with
    | raised => exact ⟨h0, h1⟩
    | response parsed =>
      cases parsed with
      | none => exact ⟨h0, h1⟩
      | some tokens =>
        exact ⟨le_max_left 0 _, max_le (le_trans h0 h1) (min_le_right _ _)⟩

/-- Witness for C9: an absurdly large parsed value is clamped to the
endowment, staying in range. -/
theorem C9_decision_in_range_witness :
    (0 : Int) ≤ 2 ∧ (2 : Int) ≤ defaultConfig.tokensPerRound
    ∧ (0 ≤ generate_ai_move defaultConfig false 2 (ExtOutcome.response (some 99))
       ∧ generate_ai_move defaultConfig false 2 (ExtOutcome.response (some 99))
          ≤ defaultConfig.tokensPerRound) :=
  ⟨by decide, by decide,
    C9_decision_in_range defaultConfig false 2 (ExtOutcome.response (some 99))
      (by decide) (by decide)⟩

/-- C10: round completeness is judged against the game's current player
count — is_round_complete holds exactly when the round's recorded moves
reach the number of currently joined players; concretely, a game with only
2 players settles its round and advances as soon as 2 moves are in. -/
theorem C10_completeness_uses_player_count :
    (∀ (st : GameSt) (n : Nat),
        is_round_complete st n = true ↔ movesCount st n ≥ st.players.length)
    ∧ ((runMoves defaultConfig (initialState [0, 1]) [(0, 3), (1, 2)]).currentRound = 1
       ∧ (lookupRound (runMoves defaultConfig (initialState [0, 1])
            [(0, 3), (1, 2)]).rounds 0).map RoundSt.settleCount = some 1) := by
  exact ⟨fun st n => is_round_complete_true_iff st n, by decide, by decide⟩

/-- C7 counterexample: create_game produces a game that is already ACTIVE
with startedAt stamped while zero players have joined, and add_ai_player
still accepts a player into this game that long left WAITING — so the
claimed WAITING-until-G-th-join lifecycle does not match the code. -/
theorem C7_counterexample :
    (create_game 0).status = GStatus.active
    ∧ (create_game 0).startedAt = some 0
    ∧ (create_game 0).players.length = 0
    ∧ (add_ai_player (create_game 0) 7 5).1 = AddOutcome.added 0 := by
  exact ⟨rfl, rfl, rfl, rfl⟩

/-- C7 (amended): add_ai_player rejects exactly when 4 players have already
joined (there is no status check); each accepted player is appended at the
next 0-based position; when the 4th player joins the status is set to
active and startedAt is restamped; and create_game already creates the
game ACTIVE with startedAt stamped at creation, so no WAITING-to-ACTIVE
transition happens at join time. -/
theorem C7_add_player :
    (∀ now : Nat, (create_game now).status = GStatus.active
        ∧ (create_game now).startedAt = some now
        ∧ (create_game now).players = [])
    ∧ (∀ (g : AppGame) (pid now : Nat),
        (g.players.length ≥ 4 → add_ai_player g pid now = (AddOutcome.gameFull, g))
        ∧ (g.players.length < 4 →
            (add_ai_player g pid now).1 = AddOutcome.added g.players.length
            ∧ (add_ai_player g pid now).2.players =
                g.players ++ [{ id := pid, position := g.players.length, joinedAt := now }]
            ∧ (g.players.length + 1 ≥ 4 →
                (add_ai_player g pid now).2.status = GStatus.active
                ∧ (add_ai_player g pid now).2.startedAt = some now)
            ∧ (g.players.length + 1 < 4 →
                (add_ai_player g pid now).2.status = g.status
                ∧ (add_ai_player g pid now).2.startedAt = g.startedAt))) := by
  constructor
  · intro now
    exact ⟨rfl, rfl, rfl⟩
  · intro g pid now
    constructor
    · intro h
      simp [add_ai_player, h]
    · intro h
      have hn : ¬ (g.players.length ≥ 4) := by omega
      by_cases h4 : g.players.length + 1 ≥ 4
      · refine ⟨?_, ?_, fun _ => ⟨?_, ?_⟩, fun hlt => absurd h4 (by omega)⟩ <;>
          simp [add_ai_player, hn, h4]
      · refine ⟨?_, ?_, fun hge => absurd hge h4, fun _ => ⟨?_, ?_⟩⟩ <;>
          simp [add_ai_player, hn, h4]

/-- Witness for C7 (amended): adding a first player to a freshly created
game is accepted at position 0 and leaves the already-active status and
creation-time startedAt untouched. -/
theorem C7_add_player_witness :
    (create_game 0).players.length < 4
    ∧ (create_game 0).players.length + 1 < 4
    ∧ (add_ai_player (create_game 0) 7 5).1 =
        AddOutcome.added (create_game 0).players.length
    ∧ (add_ai_player (create_game 0) 7 5).2.status = (create_game 0).status
    ∧ (add_ai_player (create_game 0) 7 5).2.startedAt = (create_game 0).startedAt := by
  refine ⟨by decide, by decide, ?_, ?_, ?_⟩
  · exact ((C7_add_player.2 (create_game 0) 7 5).2 (by decide)).1
  · exact (((C7_add_player.2 (create_game 0) 7 5).2 (by decide)).2.2.2 (by decide)).1
  · exact (((C7_add_player.2 (create_game 0) 7 5).2 (by decide)).2.2.2 (by decide)).2

/-! Combinatorial lemmas for the automated/interactive equivalence. -/

theorem roundHasMove_eq_false_iff {r : RoundSt} {pid : Nat} :
    roundHasMove r pid = false ↔ pid ∉ moverIds r := by
  rw [Bool.eq_false_iff]
  exact not_congr roundHasMove_iff

theorem idsOf_append (l1 l2 : List PlayerSt) :
    idsOf (l1 ++ l2) = idsOf l1 ++ idsOf l2 := by
  simp [idsOf]

theorem idsOf_length (l : List PlayerSt) : (idsOf l).length = l.length := by
  simp [idsOf]

theorem mkMovesFrom_nil (cfg : Config) (d : Nat → Nat → Int) (rn k : Nat) :
    mkMovesFrom cfg d rn k [] = [] := rfl

theorem mkMovesFrom_cons (cfg : Config) (d : Nat → Nat → Int) (rn k : Nat)
    (x : Nat) (ids : List Nat) :
    mkMovesFrom cfg d rn k (x :: ids)
      = mkMove cfg x (d rn k) :: mkMovesFrom cfg d rn (k + 1) ids := by
  simp [mkMovesFrom]

theorem mkMovesFrom_append (cfg : Config) (d : Nat → Nat → Int) (rn : Nat) :
    ∀ (l1 l2 : List Nat) (k : Nat),
      mkMovesFrom cfg d rn k (l1 ++ l2)
        = mkMovesFrom cfg d rn k l1 ++ mkMovesFrom cfg d rn (k + l1.length) l2 := by
  intro l1
  induction l1 with
  | nil => intro l2 k; simp [mkMovesFrom_nil]
  | cons x l1 ih =>
    intro l2 k
    rw [List.cons_append, mkMovesFrom_cons, mkMovesFrom_cons, ih]
    simp [Nat.add_assoc, Nat.add_comm 1 l1.length]

theorem mkMovesFrom_length (cfg : Config) (d : Nat → Nat → Int) (rn : Nat) :
    ∀ (ids : List Nat) (k : Nat), (mkMovesFrom cfg d rn k ids).length = ids.length := by
  intro ids
  induction ids with
  | nil => intro k; rfl
  | cons x ids ih => intro k; rw [mkMovesFrom_cons]; simp [ih]

theorem mkMovesFrom_movers (cfg : Config) (d : Nat → Nat → Int) (rn : Nat) :
    ∀ (ids : List Nat) (k : Nat),
      (mkMovesFrom cfg d rn k ids).map Move.playerId = ids := by
  intro ids
  induction ids with
  | nil => intro k; rfl
  | cons x ids ih => intro k; rw [mkMovesFrom_cons]; simp [ih, mkMove]

theorem scheduleFrom_nil (d : Nat → Nat → Int) (rn k : Nat) :
    scheduleFrom d rn k [] = [] := rfl

theorem scheduleFrom_cons (d : Nat → Nat → Int) (rn k : Nat) (x : Nat)
    (ids : List Nat) :
    scheduleFrom d rn k (x :: ids)
      = (x, d rn k) :: scheduleFrom d rn (k + 1) ids := by
  simp [scheduleFrom]

theorem roundSchedule_eq_scheduleFrom (d : Nat → Nat → Int) (rn : Nat)
    (ids : List Nat) :
    roundSchedule d rn ids = scheduleFrom d rn 0 ids := rfl

theorem players_enum_moves (cfg : Config) (d : Nat → Nat → Int) (rn : Nat) :
    ∀ (ps : List PlayerSt) (k : Nat),
      (List.enumFrom k ps).map (fun ip => mkMove cfg ip.2.id (d rn ip.1))
        = mkMovesFrom cfg d rn k (idsOf ps) := by
  intro ps
  induction ps with
  | nil => intro k; rfl
  | cons p ps ih =>
    intro k
    simp only [List.enumFrom_cons, List.map_cons, idsOf, mkMovesFrom]
    have := ih (k + 1)
    simp only [idsOf, mkMovesFrom] at this
    rw [this]

theorem round_step (cfg : Config) (d : Nat → Nat → Int) (rn : Nat)
    (hd : ∀ i, 0 ≤ d rn i ∧ d rn i ≤ cfg.tokensPerRound) :
    ∀ (rest pre : List PlayerSt) (st : GameSt) (R0 : List (Nat × RoundSt)),
      rest ≠ [] →
      st.players = pre ++ rest →
      (idsOf st.players).Nodup →
      st.currentRound = rn →
      lookupRound R0 rn = none →
      st.rounds = (if pre = [] then R0
        else R0 ++ [(rn, { emptyRound with
            moves := mkMovesFrom cfg d rn 0 (idsOf pre) })]) →
      runMoves cfg st (scheduleFrom d rn pre.length (idsOf rest)) =
        (if (rn : Int) ≥ (cfg.maxRounds : Int) - 1 then
          finalize_game cfg (calculate_round_results cfg
            { st with rounds := R0 ++ [(rn, { emptyRound with
                moves := mkMovesFrom cfg d rn 0 (idsOf st.players) })] } rn)
        else advance_round (calculate_round_results cfg
            { st with rounds := R0 ++ [(rn, { emptyRound with
                moves := mkMovesFrom cfg d rn 0 (idsOf st.players) })] } rn)) := by
  intro rest
  induction rest with
  | nil => intro pre st R0 hne; exact absurd rfl hne
  | cons p rest' ih =>
    intro pre st R0 _ hps hnd hcr hR0 hrounds
    -- the head submission
    have hpmem : p.id ∈ idsOf st.players := by
      rw [hps, idsOf_append]
      exact List.mem_append_right _ (by simp [idsOf])
    obtain ⟨q, hq⟩ := Option.isSome_iff_exists.mp (findPlayer_isSome_of_mem hpmem)
    have hbounds : ¬ (d rn pre.length < 0 ∨ d rn pre.length > cfg.tokensPerRound) := by
      rcases hd pre.length with ⟨ha, hb⟩
      omega
    have hndsplit : p.id ∉ idsOf pre := by
      rw [hps, idsOf_append] at hnd
      rcases List.nodup_append.mp hnd with ⟨-, -, hdisj⟩
      intro hmem
      exact hdisj hmem (by simp [idsOf])
    have hcurval : (lookupRound st.rounds rn).getD emptyRound
        = { emptyRound with moves := mkMovesFrom cfg d rn 0 (idsOf pre) } := by
      rw [hrounds]
      by_cases hpe : pre = []
      · rw [if_pos hpe, hR0, hpe]
        rfl
      · rw [if_neg hpe, lookupRound_append_right _ _ _ hR0]
        simp [lookupRound]
    have hdup : roundHasMove ((lookupRound st.rounds st.currentRound).getD emptyRound)
        p.id = false := by
      rw [hcr, hcurval, roundHasMove_eq_false_iff]
      intro hmem
      apply hndsplit
      have : moverIds { emptyRound with moves := mkMovesFrom cfg d rn 0 (idsOf pre) }
          = idsOf pre := mkMovesFrom_movers cfg d rn (idsOf pre) 0
      rwa [this] at hmem
    have hschedule : scheduleFrom d rn pre.length (idsOf (p :: rest'))
        = (p.id, d rn pre.length) :: scheduleFrom d rn (pre.length + 1) (idsOf rest') := by
      have : idsOf (p :: rest') = p.id :: idsOf rest' := by simp [idsOf]
      rw [this, scheduleFrom_cons]
    rw [hschedule, runMoves_cons]
    rw [process_move_recorded_snd hq hbounds hdup]
    dsimp only
    rw [hcr, hcurval]
    dsimp only
    -- the recorded move list of the new round value
    have hmoves : mkMovesFrom cfg d rn 0 (idsOf pre)
          ++ [mkMove cfg p.id (d rn pre.length)]
        = mkMovesFrom cfg d rn 0 (idsOf (pre ++ [p])) := by
      rw [idsOf_append, mkMovesFrom_append]
      have h1 : idsOf [p] = [p.id] := rfl
      have h2 : (idsOf pre).length = pre.length := idsOf_length pre
      rw [h1, h2]
      simp [mkMovesFrom_cons, mkMovesFrom_nil, Nat.zero_add]
    rw [hmoves]
    have hset : setRound st.rounds rn
          { emptyRound with moves := mkMovesFrom cfg d rn 0 (idsOf (pre ++ [p])) }
        = R0 ++ [(rn, { emptyRound with
            moves := mkMovesFrom cfg d rn 0 (idsOf (pre ++ [p])) })] := by
      rw [hrounds]
      by_cases hpe : pre = []
      · rw [if_pos hpe]
        exact setRound_append_of_absent _ _ _ hR0
      · rw [if_neg hpe]
        exact setRound_snoc_same _ _ _ _ hR0
    rw [hset]
    cases rest' with
    | nil =>
      have hic : is_round_complete
          { st with currentRound := rn, rounds := R0 ++ [(rn, { emptyRound with
              moves := mkMovesFrom cfg d rn 0 (idsOf (pre ++ [p])) })] } rn = true := by
        rw [is_round_complete_true_iff]
        have hlook : lookupRound (R0 ++ [(rn, { emptyRound with
            moves := mkMovesFrom cfg d rn 0 (idsOf (pre ++ [p])) })]) rn
            = some { emptyRound with
                moves := mkMovesFrom cfg d rn 0 (idsOf (pre ++ [p])) } := by
          rw [lookupRound_append_right _ _ _ hR0]
          simp [lookupRound]
        simp only [movesCount, hlook]
        rw [mkMovesFrom_length, idsOf_length]
        show (pre ++ [p]).length ≥ st.players.length
        rw [hps]
      rw [if_pos hic]
      have hcr2 : (calculate_round_results cfg
          { st with currentRound := rn, rounds := R0 ++ [(rn, { emptyRound with
              moves := mkMovesFrom cfg d rn 0 (idsOf (pre ++ [p])) })] } rn).currentRound
          = rn := by
        rw [calculate_round_results_currentRound]
      rw [hcr2]
      have hnilsched : scheduleFrom d rn (pre.length + 1) (idsOf ([] : List PlayerSt))
          = [] := rfl
      rw [hnilsched, runMoves_nil, ← hps]
    | cons p2 rest2 =>
      have hic : is_round_complete
          { st with currentRound := rn, rounds := R0 ++ [(rn, { emptyRound with
              moves := mkMovesFrom cfg d rn 0 (idsOf (pre ++ [p])) })] } rn = false := by
        rw [Bool.eq_false_iff, Ne, is_round_complete_true_iff]
        have hlook : lookupRound (R0 ++ [(rn, { emptyRound with
            moves := mkMovesFrom cfg d rn 0 (idsOf (pre ++ [p])) })]) rn
            = some { emptyRound with
                moves := mkMovesFrom cfg d rn 0 (idsOf (pre ++ [p])) } := by
          rw [lookupRound_append_right _ _ _ hR0]
          simp [lookupRound]
        simp only [movesCount, hlook]
        rw [mkMovesFrom_length, idsOf_length]
        show ¬ ((pre ++ [p]).length ≥ st.players.length)
        rw [hps]
        simp only [List.length_append, List.length_cons, List.length_singleton,
          List.length_nil]
        omega
      rw [if_neg (by rw [hic]; exact Bool.false_ne_true)]
      have hih := ih (pre ++ [p])
        { st with currentRound := rn, rounds := R0 ++ [(rn, { emptyRound with
            moves := mkMovesFrom cfg d rn 0 (idsOf (pre ++ [p])) })] } R0
        (List.cons_ne_nil p2 rest2)
        (by
          show st.players = (pre ++ [p]) ++ p2 :: rest2
          rw [hps, List.append_cons])
        hnd
        rfl
        hR0
        (by
          show R0 ++ [(rn, { emptyRound with
              moves := mkMovesFrom cfg d rn 0 (idsOf (pre ++ [p])) })] = _
          rw [if_neg (by simp)])
      simp only [List.length_append, List.length_singleton] at hih
      rw [hih]

theorem procAfter_zero (cfg : Config) (d : Nat → Nat → Int) (pids : List Nat) :
    procAfter cfg d pids 0 = initialState pids := rfl

theorem procAfter_succ (cfg : Config) (d : Nat → Nat → Int) (pids : List Nat)
    (n : Nat) :
    procAfter cfg d pids (n + 1)
      = runMoves cfg (procAfter cfg d pids n) (roundSchedule d n pids) := by
  unfold procAfter
  rw [List.range_succ, List.map_append, List.flatten_append, runMoves_append]
  simp

theorem runPathN_zero (cfg : Config) (d : Nat → Nat → Int) (pids : List Nat) :
    runPathN cfg d pids 0 = initialState pids := rfl

theorem runPathN_succ (cfg : Config) (d : Nat → Nat → Int) (pids : List Nat)
    (n : Nat) :
    runPathN cfg d pids (n + 1)
      = run_round cfg d (runPathN cfg d pids n) n := by
  unfold runPathN
  rw [List.range_succ, List.foldl_append]
  rfl

theorem run_round_eq (cfg : Config) (d : Nat → Nat → Int) (s : GameSt)
    (rn : Nat) :
    run_round cfg d s rn = calculate_round_results cfg { s with currentRound := rn, rounds := s.rounds ++ [(rn, driverRound cfg d rn (idsOf s.players))] } rn := by
  have hm : (List.enum ({ s with currentRound := rn } : GameSt).players).map
      (fun ip => mkMove cfg ip.2.id (d rn ip.1))
      = mkMovesFrom cfg d rn 0 (idsOf s.players) := by
    show (List.enumFrom 0 s.players).map (fun ip => mkMove cfg ip.2.id (d rn ip.1)) = _
    exact players_enum_moves cfg d rn s.players 0
  unfold run_round driverRound
  dsimp only
  rw [hm]

theorem run_round_ids (cfg : Config) (d : Nat → Nat → Int) (s : GameSt)
    (rn : Nat) :
    idsOf (run_round cfg d s rn).players = idsOf s.players := by
  rw [run_round_eq, calculate_round_results_ids]

theorem runPathN_ids (cfg : Config) (d : Nat → Nat → Int) (pids : List Nat)
    (n : Nat) :
    idsOf (runPathN cfg d pids n).players = pids := by
  induction n with
  | zero => exact initialState_ids pids
  | succ n ih => rw [runPathN_succ, run_round_ids, ih]

theorem procAfter_ids (cfg : Config) (d : Nat → Nat → Int) (pids : List Nat)
    (n : Nat) :
    idsOf (procAfter cfg d pids n).players = pids := by
  unfold procAfter
  rw [runMoves_ids, initialState_ids]

theorem finalize_game_ignores_stamp (cfg : Config) (st : GameSt) (s : GStatus)
    (b : Bool) :
    finalize_game cfg { st with status := s, gameCompletedAt := b }
      = finalize_game cfg st := rfl

theorem paths_agree (cfg : Config) (d : Nat → Nat → Int) (pids : List Nat)
    (hnd : pids.Nodup) (hne : pids ≠ [])
    (hd : ∀ rn i, 0 ≤ d rn i ∧ d rn i ≤ cfg.tokensPerRound) :
    ∀ n, n < cfg.maxRounds →
      procAfter cfg d pids n = { runPathN cfg d pids n with currentRound := n }
      ∧ (∀ m, n ≤ m → lookupRound (runPathN cfg d pids n).rounds m = none) := by
  intro n
  induction n with
  | zero =>
    intro _
    exact ⟨rfl, fun m _ => rfl⟩
  | succ n ih =>
    intro hlt
    obtain ⟨ha, hb⟩ := ih (by omega)
    have hids : idsOf (procAfter cfg d pids n).players = pids :=
      procAfter_ids cfg d pids n
    have hplayers_ne : (procAfter cfg d pids n).players ≠ [] := by
      intro h0
      apply hne
      rw [← hids, h0]
      rfl
    have hcur : (procAfter cfg d pids n).currentRound = n := by rw [ha]
    have hrounds_eq : (procAfter cfg d pids n).rounds
        = (runPathN cfg d pids n).rounds := by rw [ha]
    have hR0none : lookupRound (procAfter cfg d pids n).rounds n = none := by
      rw [hrounds_eq]
      exact hb n (le_refl n)
    have hndst : (idsOf (procAfter cfg d pids n).players).Nodup := by
      rw [hids]; exact hnd
    have hstep := round_step cfg d n (hd n) (procAfter cfg d pids n).players []
      (procAfter cfg d pids n) (procAfter cfg d pids n).rounds
      hplayers_ne (by simp) hndst hcur hR0none (by rw [if_pos rfl])
    simp only [List.length_nil] at hstep
    rw [hids, ← roundSchedule_eq_scheduleFrom] at hstep
    have hcond : ¬ ((n : Int) ≥ (cfg.maxRounds : Int) - 1) := by
      omega
    rw [if_neg hcond] at hstep
    have hdr : ({ emptyRound with moves := mkMovesFrom cfg d n 0 pids } : RoundSt)
        = driverRound cfg d n pids := rfl
    rw [hdr] at hstep
    have hstates : ({ (procAfter cfg d pids n) with rounds := (procAfter cfg d pids n).rounds ++ [(n, driverRound cfg d n pids)] } : GameSt) = { (runPathN cfg d pids n) with currentRound := n, rounds := (runPathN cfg d pids n).rounds ++ [(n, driverRound cfg d n pids)] } := by
      rw [ha]
    have hrun : runPathN cfg d pids (n + 1) = calculate_round_results cfg ({ (procAfter cfg d pids n) with rounds := (procAfter cfg d pids n).rounds ++ [(n, driverRound cfg d n pids)] }) n := by
      rw [runPathN_succ, run_round_eq, runPathN_ids, hstates]
    have hcurN : (runPathN cfg d pids (n + 1)).currentRound = n := by
      rw [hrun, calculate_round_results_currentRound]
      exact hcur
    constructor
    · rw [procAfter_succ, hstep, ← hrun]
      show advance_round (runPathN cfg d pids (n + 1)) = _
      unfold advance_round
      rw [hcurN]
    · intro m hm
      rw [hrun]
      rw [calculate_round_results_other cfg _ n m (by omega)]
      show lookupRound ((procAfter cfg d pids n).rounds ++ [(n, driverRound cfg d n pids)]) m = none
      have hleft : lookupRound (procAfter cfg d pids n).rounds m = none := by
        rw [hrounds_eq]
        exact hb m (by omega)
      rw [lookupRound_append_right _ _ _ hleft]
      have hne2 : ¬ (n = m) := by omega
      simp [lookupRound, hne2]

/-- C4: running the automated full game produces exactly the same final
state — recorded moves, per-move earnings, per-player totalEarnings, round
aggregates and final results — as submitting the same provider decisions
one at a time through process_move, so automated and interactive play are
settlement-equivalent and share the earnings logic. -/
theorem C4_automated_matches_interactive :
    ∀ (cfg : Config) (d : Nat → Nat → Int) (pids : List Nat),
      pids.Nodup → pids.length = 4 → 1 ≤ cfg.maxRounds →
      (∀ rn i, 0 ≤ d rn i ∧ d rn i ≤ cfg.tokensPerRound) →
      (run_full_game cfg d (initialState pids)).2
        = runMoves cfg (initialState pids) (fullSchedule cfg d pids) := by
  intro cfg d pids hnd h4 hmax hd
  have hne : pids ≠ [] := by
    intro h
    rw [h] at h4
    simp at h4
  obtain ⟨k, hk⟩ : ∃ k, cfg.maxRounds = k + 1 := ⟨cfg.maxRounds - 1, by omega⟩
  have hlen : (initialState pids).players.length = 4 := by
    simp [initialState, h4]
  have hfull : run_full_game cfg d (initialState pids)
      = (RunOutcome.ok, finalize_game cfg { (runPathN cfg d pids cfg.maxRounds) with status := GStatus.completed, gameCompletedAt := true }) := by
    unfold run_full_game
    rw [if_neg (by rw [hlen]; simp)]
    rfl
  obtain ⟨ha, hb⟩ := paths_agree cfg d pids hnd hne hd k (by omega)
  have hids : idsOf (procAfter cfg d pids k).players = pids :=
    procAfter_ids cfg d pids k
  have hplayers_ne : (procAfter cfg d pids k).players ≠ [] := by
    intro h0
    apply hne
    rw [← hids, h0]
    rfl
  have hcur : (procAfter cfg d pids k).currentRound = k := by rw [ha]
  have hrounds_eq : (procAfter cfg d pids k).rounds
      = (runPathN cfg d pids k).rounds := by rw [ha]
  have hR0none : lookupRound (procAfter cfg d pids k).rounds k = none := by
    rw [hrounds_eq]
    exact hb k (le_refl k)
  have hndst : (idsOf (procAfter cfg d pids k).players).Nodup := by
    rw [hids]; exact hnd
  have hstep := round_step cfg d k (hd k) (procAfter cfg d pids k).players []
    (procAfter cfg d pids k) (procAfter cfg d pids k).rounds
    hplayers_ne (by simp) hndst hcur hR0none (by rw [if_pos rfl])
  simp only [List.length_nil] at hstep
  rw [hids, ← roundSchedule_eq_scheduleFrom] at hstep
  have hcond : ((k : Int) ≥ (cfg.maxRounds : Int) - 1) := by
    rw [hk]
    push_cast
    omega
  rw [if_pos hcond] at hstep
  have hdr : ({ emptyRound with moves := mkMovesFrom cfg d k 0 pids } : RoundSt)
      = driverRound cfg d k pids := rfl
  rw [hdr] at hstep
  have hstates : ({ (procAfter cfg d pids k) with rounds := (procAfter cfg d pids k).rounds ++ [(k, driverRound cfg d k pids)] } : GameSt) = { (runPathN cfg d pids k) with currentRound := k, rounds := (runPathN cfg d pids k).rounds ++ [(k, driverRound cfg d k pids)] } := by
    rw [ha]
  have hrun : runPathN cfg d pids (k + 1) = calculate_round_results cfg ({ (procAfter cfg d pids k) with rounds := (procAfter cfg d pids k).rounds ++ [(k, driverRound cfg d k pids)] }) k := by
    rw [runPathN_succ, run_round_eq, runPathN_ids, hstates]
  have hrhs : runMoves cfg (initialState pids) (fullSchedule cfg d pids)
      = procAfter cfg d pids cfg.maxRounds := rfl
  rw [hrhs, hfull, hk]
  show finalize_game cfg { (runPathN cfg d pids (k + 1)) with status := GStatus.completed, gameCompletedAt := true } = procAfter cfg d pids (k + 1)
  rw [finalize_game_ignores_stamp, hrun, procAfter_succ, hstep]

/-- Witness for C4: the equivalence instantiated at the default
configuration with four players and a constant decision provider. -/
theorem C4_automated_matches_interactive_witness :
    ([0, 1, 2, 3] : List Nat).Nodup
    ∧ ([0, 1, 2, 3] : List Nat).length = 4
    ∧ 1 ≤ defaultConfig.maxRounds
    ∧ (run_full_game defaultConfig (fun _ _ => 3) (initialState [0, 1, 2, 3])).2
        = runMoves defaultConfig (initialState [0, 1, 2, 3])
            (fullSchedule defaultConfig (fun _ _ => 3) [0, 1, 2, 3]) :=
  ⟨by decide, by decide, by decide,
    C4_automated_matches_interactive defaultConfig (fun _ _ => 3) [0, 1, 2, 3]
      (by decide) (by decide) (by decide)
      (fun _ _ => ⟨by norm_num, by norm_num [defaultConfig]⟩)⟩
